import Mathlib

/-!
Shallow embedding of the Cube.js model-editor server (Express app in
cube-editor: the in-memory model map, the ConfigMap file it persists,
and the deploy / delete / list / get / validate endpoints), together
with the client-side validateModel from cube-editor/script.js.

External commands (kubectl invocations via executeCommand) are modelled
by an environment record holding each command outcome as
Except String String (error = the subprocess failed and the promise
rejected with that message; ok = captured stdout). File writes are
modelled as pure state updates.
-/

/-- Test whether the pattern is an initial segment of the list
(JS String.startsWith on char lists, used to build includes/replace). -/
def leadsWith : List Char → List Char → Bool
  | [], _ => true
  | _ :: _, [] => false
  | p :: ps, c :: cs => p == c && leadsWith ps cs

/-- Occurrence test: the pattern occurs somewhere in the list
(semantics of JS String.includes). -/
def hasSub (pat : List Char) : List Char → Bool
  | [] => leadsWith pat []
  | c :: cs => leadsWith pat (c :: cs) || hasSub pat cs

/-- JS str.includes(pat). -/
def jsIncludes (s pat : String) : Bool := hasSub pat.data s.data

/-- Replace the FIRST occurrence of the pattern (JS String.replace with a
string pattern replaces only the first occurrence); unchanged when the
pattern does not occur. -/
def replaceFirstAux (pat rep : List Char) : List Char → List Char
  | [] => []
  | c :: cs =>
      if leadsWith pat (c :: cs) then rep ++ (c :: cs).drop pat.length
      else c :: replaceFirstAux pat rep cs

/-- JS s.replace(pat, rep) for nonempty string patterns. -/
def jsReplaceFirst (s pat rep : String) : String :=
  ⟨replaceFirstAux pat.data rep.data s.data⟩

/-- The key-to-name step of loadExistingModels: key.replace(".js", ""). -/
def stripJs (key : String) : String := jsReplaceFirst key ".js" ""

/-- A JS object with string keys and string values, in insertion order
(currentModels, and the data section of the ConfigMap). -/
abbrev Models := List (String × String)

/-- Whether the object has the key (JS: key in obj). -/
def hasKeyB (m : Models) (k : String) : Bool := m.any (fun p => p.1 == k)

/-- JS property read obj[k]: none models undefined. -/
def getKey (m : Models) (k : String) : Option String :=
  (m.find? (fun p => p.1 == k)).map (fun p => p.2)

/-- JS property assignment obj[k] = v: overwrite in place when the key
exists (object keys are unique, so the first match is the entry),
append otherwise. -/
def setKey : Models → String → String → Models
  | [], k, v => [(k, v)]
  | p :: ps, k, v => if p.1 == k then (k, v) :: ps else p :: setKey ps k v

/-- JS delete obj[k]: removes the key, a no-op when absent. -/
def delKey (m : Models) (k : String) : Models := m.filter (fun p => p.1 != k)

/-- JS value truthiness restricted to the values stored in currentModels:
undefined is falsy, the empty string is falsy, other strings are truthy. -/
def jsTruthy : Option String → Bool
  | none => false
  | some t => t != ""

/-- Server state: the in-memory currentModels object and the data section
of the persisted ConfigMap YAML file (k8s/configmaps/cube-models.yaml). -/
structure ServerState where
  currentModels : Models
  configMapFile : Models
deriving Repr, DecidableEq

/-- loadExistingModels: reads the ConfigMap file and, for every key of its
data section, assigns currentModels[key.replace(".js","")] = data[key].
It never clears currentModels first, so it merges into the existing map. -/
def loadExistingModels (mem doc : Models) : Models :=
  doc.foldl (fun acc p => setKey acc (stripJs p.1) p.2) mem

/-- Serialization in deploy and delete: configMap.data[name + ".js"] =
currentModels[name] for every key of currentModels, in order. -/
def serializeData (m : Models) : Models :=
  m.map (fun p => (p.1 ++ ".js", p.2))

/-- GET /api/models: reloads from the ConfigMap file into currentModels
and answers with the (merged) map. -/
def listModels (s : ServerState) : ServerState × Models :=
  let mem := loadExistingModels s.currentModels s.configMapFile
  (⟨mem, s.configMapFile⟩, mem)

/-- GET /api/models/:name — answers from currentModels only; the branch
is the JS truthiness test if (currentModels[modelName]). Error = the 404
message. -/
def getModel (s : ServerState) (name : String) : Except String String :=
  if jsTruthy (getKey s.currentModels name) then
    .ok ((getKey s.currentModels name).getD "")
  else
    .error ("Model " ++ name ++ " not found")

/-- POST /api/validate (server side): requires a cube( or view( marker,
then asks the parse oracle (new Function(code); some msg = it threw). -/
def apiValidate (parses : String → Option String) (code : String) :
    Except String Unit :=
  if !jsIncludes code "cube(" && !jsIncludes code "view(" then
    .error "Model must contain a cube() or view() function"
  else
    match parses code with
    | some msg => .error msg
    | none => .ok ()

/-- validateModel from cube-editor/script.js: marker check, then the
structural sql:/cubes: check, then the parse oracle. -/
def validateModel (parses : String → Option String) (code : String) :
    Except String Unit :=
  if !jsIncludes code "cube(" && !jsIncludes code "view(" then
    .error "Model must contain a cube() or view() function"
  else if !jsIncludes code "sql:" && !jsIncludes code "cubes:" then
    .error "Model must contain SQL definition or cube references"
  else
    match parses code with
    | some msg => .error msg
    | none => .ok ()

/-- The external kubectl commands a deploy or delete call can invoke. -/
inductive Cmd where
  | applyConfigMap
  | restart
  | getDeployYaml
  | patchAddMount
  | getDeployJson
  | patchRemoveMount
  | rolloutStatus
deriving Repr, DecidableEq

/-- Outcomes of the external commands during one request. getDeployJson
carries, on success, the mountPath list of the first container
(deployment.spec.template.spec.containers[0].volumeMounts, as parsed by
JSON.parse; an unparsable or failed response is the error case). -/
structure Env where
  applyRes : Except String String
  restartRes : Except String String
  getDeployYamlRes : Except String String
  patchAddRes : Except String String
  getDeployJsonRes : Except String (List String)
  patchRemoveRes : Except String String
  statusRes : Except String String
deriving Repr

/-- checkIfModelMountExists: runs the get-deployment-yaml command and
tests whether its output contains /cube/conf/model/<name>.js; any error
from the command is caught and reported as false. -/
def checkIfModelMountExists (res : Except String String) (name : String) :
    Bool :=
  match res with
  | .ok yaml => jsIncludes yaml ("/cube/conf/model/" ++ name ++ ".js")
  | .error _ => false

/-- One entry of the steps array returned by POST /api/deploy. -/
structure StepResult where
  step : String
  output : String
deriving Repr, DecidableEq

/-- Result of one request: the state after it, the external commands that
were actually invoked in order, and the HTTP response (ok = the 200
payload, error = the 500 message). -/
structure ReqResult (α : Type) where
  state : ServerState
  invoked : List Cmd
  response : Except String α
deriving Repr

/-- The command sequence of POST /api/deploy after the state was updated:
apply, restart, the mount check (its query error is swallowed), the
conditional mount patch, and the rollout wait; the first rejected await
aborts the rest and its message becomes the 500 response. -/
def deploySteps (env : Env) (name : String) :
    List Cmd × Except String (List StepResult) :=
  match env.applyRes with
  | .error e => ([.applyConfigMap], .error e)
  | .ok o1 =>
    match env.restartRes with
    | .error e => ([.applyConfigMap, .restart], .error e)
    | .ok o2 =>
      let isNewModel := !checkIfModelMountExists env.getDeployYamlRes name
      if isNewModel then
        match env.patchAddRes with
        | .error e =>
            ([.applyConfigMap, .restart, .getDeployYaml, .patchAddMount],
             .error e)
        | .ok o3 =>
          match env.statusRes with
          | .error e =>
              ([.applyConfigMap, .restart, .getDeployYaml, .patchAddMount,
                .rolloutStatus], .error e)
          | .ok o4 =>
              ([.applyConfigMap, .restart, .getDeployYaml, .patchAddMount,
                .rolloutStatus],
               .ok [⟨"apply", o1⟩, ⟨"restart", o2⟩, ⟨"mount", o3⟩,
                    ⟨"status", o4⟩])
      else
        match env.statusRes with
        | .error e =>
            ([.applyConfigMap, .restart, .getDeployYaml, .rolloutStatus],
             .error e)
        | .ok o4 =>
            ([.applyConfigMap, .restart, .getDeployYaml, .rolloutStatus],
             .ok [⟨"apply", o1⟩, ⟨"restart", o2⟩, ⟨"status", o4⟩])

/-- POST /api/deploy: set currentModels[modelName] = code, rebuild the
whole ConfigMap data section from currentModels, write the file, then run
the external steps. The state updates precede every command and are never
rolled back. -/
def deploy (s : ServerState) (env : Env) (name code : String) :
    ReqResult (List StepResult) :=
  ⟨⟨setKey s.currentModels name code,
    serializeData (setKey s.currentModels name code)⟩,
   (deploySteps env name).1, (deploySteps env name).2⟩

/-- The command sequence of DELETE /api/models/:name after the state was
updated: apply, the mount check (query error swallowed to false), and if
the mount exists the get-deployment-json command, an index lookup by
mountPath and the conditional index-based remove patch, then the restart. -/
def deleteSteps (env : Env) (name : String) :
    List Cmd × Except String String :=
  match env.applyRes with
  | .error e => ([.applyConfigMap], .error e)
  | .ok _ =>
    let mountExists := checkIfModelMountExists env.getDeployYamlRes name
    if mountExists then
      match env.getDeployJsonRes with
      | .error e => ([.applyConfigMap, .getDeployYaml, .getDeployJson],
                     .error e)
      | .ok mounts =>
        let mountIndex :=
          mounts.findIdx? (fun p => p == "/cube/conf/model/" ++ name ++ ".js")
        match mountIndex with
        | some _ =>
          match env.patchRemoveRes with
          | .error e =>
              ([.applyConfigMap, .getDeployYaml, .getDeployJson,
                .patchRemoveMount], .error e)
          | .ok _ =>
            match env.restartRes with
            | .error e =>
                ([.applyConfigMap, .getDeployYaml, .getDeployJson,
                  .patchRemoveMount, .restart], .error e)
            | .ok _ =>
                ([.applyConfigMap, .getDeployYaml, .getDeployJson,
                  .patchRemoveMount, .restart],
                 .ok ("Model " ++ name ++ " deleted successfully"))
        | none =>
          match env.restartRes with
          | .error e =>
              ([.applyConfigMap, .getDeployYaml, .getDeployJson, .restart],
               .error e)
          | .ok _ =>
              ([.applyConfigMap, .getDeployYaml, .getDeployJson, .restart],
               .ok ("Model " ++ name ++ " deleted successfully"))
    else
      match env.restartRes with
      | .error e => ([.applyConfigMap, .getDeployYaml, .restart], .error e)
      | .ok _ =>
          ([.applyConfigMap, .getDeployYaml, .restart],
           .ok ("Model " ++ name ++ " deleted successfully"))

/-- DELETE /api/models/:name: delete currentModels[modelName], rebuild
and write the whole ConfigMap data section, then run the external steps. -/
def deleteModel (s : ServerState) (env : Env) (name : String) :
    ReqResult String :=
  ⟨⟨delKey s.currentModels name,
    serializeData (delKey s.currentModels name)⟩,
   (deleteSteps env name).1, (deleteSteps env name).2⟩

/-- An environment in which every external command succeeds. -/
def okEnv : Env :=
  ⟨.ok "applied", .ok "restarted", .ok "yaml-without-mounts", .ok "patched",
   .ok [], .ok "removed", .ok "ready"⟩

/-! Helper lemmas about the JS-object model. -/

theorem strBeq_comm (a b : String) : (a == b) = (b == a) := by
  by_cases h : a = b
  · subst h; rfl
  · rw [beq_eq_false_iff_ne.mpr h, beq_eq_false_iff_ne.mpr (Ne.symm h)]

/-- Strings with equal character lists are equal. -/
theorem strExt {a b : String} (h : a.data = b.data) : a = b := by
  cases a; cases b; exact congrArg String.mk h

/-- Appending the same suffix preserves and reflects string equality tests. -/
theorem strBeq_append_right (a b suf : String) :
    (a ++ suf == b ++ suf) = (a == b) := by
  by_cases h : a = b
  · subst h; simp
  · have hne : a ++ suf ≠ b ++ suf := by
      intro hcontra
      apply h
      have hd : a.data ++ suf.data = b.data ++ suf.data := by
        have := congrArg String.data hcontra
        simpa [String.data_append] using this
      exact strExt (List.append_cancel_right hd)
    rw [beq_eq_false_iff_ne.mpr hne, beq_eq_false_iff_ne.mpr h]

theorem hasKeyB_nil (x : String) : hasKeyB [] x = false := rfl

theorem hasKeyB_cons (q : String × String) (m : Models) (x : String) :
    hasKeyB (q :: m) x = ((q.1 == x) || hasKeyB m x) := by
  simp [hasKeyB]

theorem getKey_nil (x : String) : getKey [] x = none := rfl

theorem getKey_cons (q : String × String) (m : Models) (x : String) :
    getKey (q :: m) x = if q.1 == x then some q.2 else getKey m x := by
  by_cases h : (q.1 == x) = true <;> simp [getKey, List.find?_cons, h]

theorem getKey_setKey_self (m : Models) (k v : String) :
    getKey (setKey m k v) k = some v := by
  induction m with
  | nil => simp [setKey, getKey_cons]
  | cons p ps ih =>
    by_cases h : (p.1 == k) = true
    · simp [setKey, h, getKey_cons]
    · simp only [Bool.not_eq_true] at h
      simp [setKey, h, getKey_cons, ih]

theorem hasKeyB_setKey (m : Models) (k v x : String) :
    hasKeyB (setKey m k v) x = ((x == k) || hasKeyB m x) := by
  induction m with
  | nil =>
    simp only [setKey, hasKeyB_cons, hasKeyB_nil]
    rw [strBeq_comm k x]
  | cons p ps ih =>
    by_cases h : (p.1 == k) = true
    · have hk : p.1 = k := eq_of_beq h
      rw [show setKey (p :: ps) k v = (k, v) :: ps by simp [setKey, h]]
      rw [hasKeyB_cons, hasKeyB_cons, hk]
      show ((k == x) || hasKeyB ps x) = ((x == k) || ((k == x) || hasKeyB ps x))
      rw [strBeq_comm k x]
      cases hkx : (x == k) <;> simp
    · simp only [Bool.not_eq_true] at h
      simp only [setKey, h, Bool.false_eq_true, if_false, hasKeyB_cons, ih]
      cases hx : (x == k) <;> cases hp : (p.1 == x) <;> simp

/-- Membership in the key list of an object. -/
theorem hasKeyB_iff_mem (m : Models) (x : String) :
    hasKeyB m x = true ↔ x ∈ m.map Prod.fst := by
  rw [hasKeyB, List.any_eq_true]
  constructor
  · rintro ⟨p, hp, he⟩
    exact List.mem_map.mpr ⟨p, hp, eq_of_beq he⟩
  · intro hx
    rcases List.mem_map.mp hx with ⟨p, hp, he⟩
    exact ⟨p, hp, by simp [he]⟩

theorem mem_keys_setKey (m : Models) (k v x : String) :
    x ∈ (setKey m k v).map Prod.fst ↔ x = k ∨ x ∈ m.map Prod.fst := by
  rw [← hasKeyB_iff_mem, hasKeyB_setKey]
  simp [hasKeyB_iff_mem, beq_iff_eq]

theorem nodup_keys_setKey (m : Models) (k v : String)
    (h : (m.map Prod.fst).Nodup) : ((setKey m k v).map Prod.fst).Nodup := by
  induction m with
  | nil => simp [setKey]
  | cons p ps ih =>
    simp only [List.map_cons, List.nodup_cons] at h
    by_cases hpk : (p.1 == k) = true
    · have hk : p.1 = k := eq_of_beq hpk
      simp only [setKey, hpk, if_true, List.map_cons, List.nodup_cons]
      exact ⟨hk ▸ h.1, h.2⟩
    · simp only [Bool.not_eq_true] at hpk
      simp only [setKey, hpk, Bool.false_eq_true, if_false, List.map_cons,
        List.nodup_cons]
      refine ⟨?_, ih h.2⟩
      rw [mem_keys_setKey]
      rintro (he | hm)
      · exact (beq_eq_false_iff_ne.mp hpk) he
      · exact h.1 hm

/-- Entries of an object after an assignment come from the old object or
are the assigned pair. -/
theorem mem_setKey (m : Models) (k v : String) (q : String × String)
    (h : q ∈ setKey m k v) : q ∈ m ∨ q = (k, v) := by
  induction m with
  | nil => simpa [setKey] using h
  | cons p ps ih =>
    by_cases hpk : (p.1 == k) = true
    · simp only [setKey, hpk, if_true, List.mem_cons] at h
      rcases h with h | h
      · right; exact h
      · left; exact List.mem_cons_of_mem _ h
    · simp only [Bool.not_eq_true] at hpk
      simp only [setKey, hpk, Bool.false_eq_true, if_false,
        List.mem_cons] at h
      rcases h with h | h
      · left; simp [h]
      · rcases ih h with h2 | h2
        · left; exact List.mem_cons_of_mem _ h2
        · right; exact h2

theorem setKey_of_not_hasKey (m : Models) (k v : String)
    (h : hasKeyB m k = false) : setKey m k v = m ++ [(k, v)] := by
  induction m with
  | nil => rfl
  | cons p ps ih =>
    rw [hasKeyB_cons, Bool.or_eq_false_iff] at h
    simp [setKey, h.1, ih h.2]

theorem hasKeyB_delKey_self (m : Models) (k : String) :
    hasKeyB (delKey m k) k = false := by
  induction m with
  | nil => rfl
  | cons p ps ih =>
    by_cases h : (p.1 == k) = true
    · rw [show delKey (p :: ps) k = delKey ps k by
        simp [delKey, List.filter_cons, bne, h]]
      exact ih
    · simp only [Bool.not_eq_true] at h
      rw [show delKey (p :: ps) k = p :: delKey ps k by
        simp [delKey, List.filter_cons, bne, h]]
      rw [hasKeyB_cons, h, ih]
      rfl

theorem delKey_of_not_hasKey (m : Models) (k : String)
    (h : hasKeyB m k = false) : delKey m k = m := by
  induction m with
  | nil => rfl
  | cons p ps ih =>
    rw [hasKeyB_cons, Bool.or_eq_false_iff] at h
    have hrec := ih h.2
    simp only [delKey, List.filter_cons, bne, h.1] at hrec ⊢
    simp [hrec]

theorem mem_delKey (m : Models) (k : String) (q : String × String)
    (h : q ∈ delKey m k) : q ∈ m ∧ (q.1 == k) = false := by
  have hf := List.mem_filter.mp h
  refine ⟨hf.1, ?_⟩
  have h2 := hf.2
  simpa [bne] using h2

theorem nodup_keys_delKey (m : Models) (k : String)
    (h : (m.map Prod.fst).Nodup) : ((delKey m k).map Prod.fst).Nodup :=
  List.Nodup.sublist (List.Sublist.map Prod.fst (List.filter_sublist m)) h

theorem keys_serializeData (m : Models) :
    (serializeData m).map Prod.fst =
      (m.map Prod.fst).map (fun a => a ++ ".js") := by
  simp only [serializeData, List.map_map]
  rfl

theorem getKey_serializeData (m : Models) (n : String) :
    getKey (serializeData m) (n ++ ".js") = getKey m n := by
  induction m with
  | nil => rfl
  | cons p ps ih =>
    simp only [serializeData, List.map_cons] at *
    rw [getKey_cons, getKey_cons, strBeq_append_right p.1 n ".js"]
    cases h : (p.1 == n) <;> simp [h, ih]

theorem hasKeyB_eq_isSome (m : Models) (k : String) :
    hasKeyB m k = (getKey m k).isSome := by
  induction m with
  | nil => rfl
  | cons p ps ih =>
    rw [hasKeyB_cons, getKey_cons]
    cases h : (p.1 == k) <;> simp [h, ih]

theorem hasKeyB_serializeData (m : Models) (n : String) :
    hasKeyB (serializeData m) (n ++ ".js") = hasKeyB m n := by
  rw [hasKeyB_eq_isSome, hasKeyB_eq_isSome, getKey_serializeData]

theorem hasKeyB_loadExistingModels (mem doc : Models) (x : String) :
    hasKeyB (loadExistingModels mem doc) x =
      (hasKeyB mem x || doc.any (fun p => stripJs p.1 == x)) := by
  induction doc generalizing mem with
  | nil => simp [loadExistingModels]
  | cons d ds ih =>
    simp only [loadExistingModels, List.foldl_cons, List.any_cons] at *
    rw [ih, hasKeyB_setKey, strBeq_comm x (stripJs d.1)]
    cases h1 : (stripJs d.1 == x) <;> cases h2 : hasKeyB mem x <;> simp

theorem hasKeyB_append (a b : Models) (x : String) :
    hasKeyB (a ++ b) x = (hasKeyB a x || hasKeyB b x) := by
  simp [hasKeyB]

theorem leadsWith_js_append_false (c : Char) (cs : List Char)
    (h1 : leadsWith ['.', 'j', 's'] (c :: cs) = false) :
    leadsWith ['.', 'j', 's'] (c :: (cs ++ ['.', 'j', 's'])) = false := by
  match cs with
  | [] =>
    have hjd : (('j' : Char) == '.') = false := by decide
    simp [leadsWith, hjd]
  | [d] =>
    have hsd : (('s' : Char) == '.') = false := by decide
    simp [leadsWith, hsd]
  | d :: e :: rest =>
    simp only [List.cons_append, leadsWith, Bool.and_true] at h1 ⊢
    exact h1

theorem replaceJs_append (l : List Char)
    (h : hasSub ['.', 'j', 's'] l = false) :
    replaceFirstAux ['.', 'j', 's'] [] (l ++ ['.', 'j', 's']) = l := by
  induction l with
  | nil => decide
  | cons c cs ih =>
    simp only [hasSub, Bool.or_eq_false_iff] at h
    have hl := leadsWith_js_append_false c cs h.1
    show replaceFirstAux ['.', 'j', 's'] [] (c :: (cs ++ ['.', 'j', 's'])) =
      c :: cs
    rw [replaceFirstAux, hl]
    simp only [Bool.false_eq_true, if_false]
    exact congrArg (c :: ·) (ih h.2)

/-- For a name free of the substring ".js", appending ".js" and stripping
the first ".js" occurrence is the identity. -/
theorem stripJs_append (s : String) (h : jsIncludes s ".js" = false) :
    stripJs (s ++ ".js") = s := by
  apply strExt
  show replaceFirstAux ".js".data "".data ((s ++ ".js").data) = s.data
  rw [String.data_append]
  exact replaceJs_append s.data h

theorem foldl_setKey_disjoint (m : Models) : ∀ acc : Models,
    (∀ p ∈ m, hasKeyB acc p.1 = false) → (m.map Prod.fst).Nodup →
    m.foldl (fun a p => setKey a p.1 p.2) acc = acc ++ m := by
  induction m with
  | nil => intro acc _ _; simp
  | cons q qs ih =>
    intro acc hd hnd
    simp only [List.map_cons, List.nodup_cons] at hnd
    simp only [List.foldl_cons]
    rw [setKey_of_not_hasKey acc q.1 q.2 (hd q (List.mem_cons_self q qs)),
      Prod.mk.eta]
    rw [ih (acc ++ [q]) ?_ hnd.2]
    · simp
    · intro p hp
      rw [hasKeyB_append, hd p (List.mem_cons_of_mem _ hp), hasKeyB_cons,
        hasKeyB_nil]
      have hne : q.1 ≠ p.1 := by
        intro hcontra
        exact hnd.1 (hcontra ▸ List.mem_map.mpr ⟨p, hp, rfl⟩)
      simp [beq_eq_false_iff_ne.mpr hne]

theorem loadExistingModels_serialize (m : Models) : ∀ acc : Models,
    (∀ p ∈ m, jsIncludes p.1 ".js" = false) →
    loadExistingModels acc (serializeData m) =
      m.foldl (fun a p => setKey a p.1 p.2) acc := by
  induction m with
  | nil => intro acc _; rfl
  | cons q qs ih =>
    intro acc hall
    simp only [serializeData, List.map_cons, loadExistingModels,
      List.foldl_cons] at *
    rw [stripJs_append q.1 (hall q (List.mem_cons_self q qs))]
    exact ih (setKey acc q.1 q.2)
      (fun p hp => hall p (List.mem_cons_of_mem _ hp))

/-- Parsing the freshly serialized document from scratch recovers the
model map exactly, provided every tracked name avoids ".js" and names
are distinct. -/
theorem loadFresh_serialize (m : Models)
    (hall : ∀ p ∈ m, jsIncludes p.1 ".js" = false)
    (hnd : (m.map Prod.fst).Nodup) :
    loadExistingModels [] (serializeData m) = m := by
  rw [loadExistingModels_serialize m [] hall,
    foldl_setKey_disjoint m [] (fun p _ => rfl) hnd]
  rfl

/-- An environment whose restart command fails. -/
def restartFailEnv : Env :=
  ⟨.ok "applied", .error "boom", .ok "yaml-without-mounts", .ok "patched",
   .ok [], .ok "removed", .ok "ready"⟩

/-- An environment whose rollout-status command fails (times out). -/
def statusFailEnv : Env :=
  ⟨.ok "applied", .ok "restarted", .ok "yaml-without-mounts", .ok "patched",
   .ok [], .ok "removed", .error "timed out waiting for the condition"⟩

/-- An environment whose get-deployment-yaml query fails. -/
def queryFailEnv : Env :=
  ⟨.ok "applied", .ok "restarted", .error "connection refused", .ok "patched",
   .ok [], .ok "removed", .ok "ready"⟩

/-- Claim C1: when every invoked external command succeeds, the deploy steps list
is exactly apply, restart, status — with a mount step between restart and
status exactly when the mount-existence query reported the path as not
registered. -/
theorem deploy_steps_order (s : ServerState) (env : Env)
    (n t o1 o2 o4 : String)
    (h1 : env.applyRes = .ok o1) (h2 : env.restartRes = .ok o2)
    (h4 : env.statusRes = .ok o4) :
    (checkIfModelMountExists env.getDeployYamlRes n = true →
      (deploy s env n t).response =
        .ok [⟨"apply", o1⟩, ⟨"restart", o2⟩, ⟨"status", o4⟩]) ∧
    (∀ o3, checkIfModelMountExists env.getDeployYamlRes n = false →
      env.patchAddRes = .ok o3 →
      (deploy s env n t).response =
        .ok [⟨"apply", o1⟩, ⟨"restart", o2⟩, ⟨"mount", o3⟩,
             ⟨"status", o4⟩]) := by
  constructor
  · intro hm
    simp [deploy, deploySteps, h1, h2, h4, hm]
  · intro o3 hm h3
    simp [deploy, deploySteps, h1, h2, h3, h4, hm]

/-- Witness for C1: a fresh deploy issues apply, restart, mount, status. -/
theorem deploy_steps_order_witness :
    (deploy ⟨[], []⟩ okEnv "Widget" "cube-text").response =
      .ok [⟨"apply", "applied"⟩, ⟨"restart", "restarted"⟩,
           ⟨"mount", "patched"⟩, ⟨"status", "ready"⟩] :=
  (deploy_steps_order ⟨[], []⟩ okEnv "Widget" "cube-text" "applied"
    "restarted" "ready" rfl rfl rfl).2 "patched" (by decide) rfl

/-- Claim C2: deploy commits the new entry to the in-memory map and to the
serialized document before any external command; the resulting state does
not depend on command outcomes (no rollback), and when a command fails its
error is the response and no later command was invoked. -/
theorem deploy_commits_before_commands (s : ServerState) (env : Env)
    (n t : String) :
    getKey (deploy s env n t).state.currentModels n = some t ∧
    getKey (deploy s env n t).state.configMapFile (n ++ ".js") = some t ∧
    (∀ env2, (deploy s env2 n t).state = (deploy s env n t).state) ∧
    (∀ e, (deploy s env n t).response = .error e →
      (env.applyRes = .error e ∧
        (deploy s env n t).invoked = [.applyConfigMap]) ∨
      (env.restartRes = .error e ∧
        (deploy s env n t).invoked = [.applyConfigMap, .restart]) ∨
      (env.patchAddRes = .error e ∧
        (deploy s env n t).invoked =
          [.applyConfigMap, .restart, .getDeployYaml, .patchAddMount]) ∨
      (env.statusRes = .error e ∧
        ((deploy s env n t).invoked =
            [.applyConfigMap, .restart, .getDeployYaml, .patchAddMount,
             .rolloutStatus] ∨
          (deploy s env n t).invoked =
            [.applyConfigMap, .restart, .getDeployYaml,
             .rolloutStatus]))) := by
  refine ⟨getKey_setKey_self _ n t, ?_, fun env2 => rfl, ?_⟩
  · show getKey (serializeData (setKey s.currentModels n t)) (n ++ ".js") =
      some t
    rw [getKey_serializeData]
    exact getKey_setKey_self _ n t
  · intro e he
    rcases ha : env.applyRes with ea | oa
    · have hresp : (deploy s env n t).response = .error ea := by
        simp [deploy, deploySteps, ha]
      rw [hresp] at he
      injection he with hee
      subst hee
      exact Or.inl ⟨rfl, by simp [deploy, deploySteps, ha]⟩
    · rcases hr : env.restartRes with er | orr
      · have hresp : (deploy s env n t).response = .error er := by
          simp [deploy, deploySteps, ha, hr]
        rw [hresp] at he
        injection he with hee
        subst hee
        exact Or.inr (Or.inl ⟨rfl, by simp [deploy, deploySteps, ha, hr]⟩)
      · cases hm : checkIfModelMountExists env.getDeployYamlRes n
        · rcases hp : env.patchAddRes with ep | op
          · have hresp : (deploy s env n t).response = .error ep := by
              simp [deploy, deploySteps, ha, hr, hm, hp]
            rw [hresp] at he
            injection he with hee
            subst hee
            exact Or.inr (Or.inr (Or.inl ⟨rfl,
              by simp [deploy, deploySteps, ha, hr, hm, hp]⟩))
          · rcases hs : env.statusRes with es | os
            · have hresp : (deploy s env n t).response = .error es := by
                simp [deploy, deploySteps, ha, hr, hm, hp, hs]
              rw [hresp] at he
              injection he with hee
              subst hee
              refine Or.inr (Or.inr (Or.inr ⟨rfl, Or.inl ?_⟩))
              simp [deploy, deploySteps, ha, hr, hm, hp, hs]
            · simp [deploy, deploySteps, ha, hr, hm, hp, hs] at he
        · rcases hs : env.statusRes with es | os
          · have hresp : (deploy s env n t).response = .error es := by
              simp [deploy, deploySteps, ha, hr, hm, hs]
            rw [hresp] at he
            injection he with hee
            subst hee
            refine Or.inr (Or.inr (Or.inr ⟨rfl, Or.inr ?_⟩))
            simp [deploy, deploySteps, ha, hr, hm, hs]
          · simp [deploy, deploySteps, ha, hr, hm, hs] at he

/-- Witness for C2: with a failing restart, the new entry is still in
memory and in the document, and only apply and restart were invoked. -/
theorem deploy_commits_before_commands_witness :
    getKey (deploy ⟨[], []⟩ restartFailEnv "W" "T").state.currentModels "W" =
      some "T" ∧
    getKey (deploy ⟨[], []⟩ restartFailEnv "W" "T").state.configMapFile
      "W.js" = some "T" ∧
    (deploy ⟨[], []⟩ restartFailEnv "W" "T").invoked =
      [.applyConfigMap, .restart] := by
  have h := deploy_commits_before_commands ⟨[], []⟩ restartFailEnv "W" "T"
  refine ⟨h.1, h.2.1, ?_⟩
  rcases h.2.2.2 "boom" rfl with hc | hc | hc | hc
  · exact absurd hc.1 (by simp [restartFailEnv])
  · exact hc.2
  · exact absurd hc.1 (by simp [restartFailEnv])
  · exact absurd hc.1 (by simp [restartFailEnv])

/-- Counterexample to C3: steps 1-6 all succeed, only the rollout-wait
command fails, and the deploy call reports failure (the 500 branch), not
overall success. -/
theorem deploy_rollout_nonfatal_counterexample :
    statusFailEnv.applyRes = .ok "applied" ∧
    statusFailEnv.restartRes = .ok "restarted" ∧
    statusFailEnv.patchAddRes = .ok "patched" ∧
    (deploy ⟨[], []⟩ statusFailEnv "Widget" "cube-text").response =
      .error "timed out waiting for the condition" :=
  ⟨rfl, rfl, rfl, rfl⟩

/-- Claim C3 amended: when the rollout-wait command fails or times out after the
earlier commands succeeded, the whole deploy call fails with that error
(no steps list is returned), while the in-memory and persisted updates
remain committed. -/
theorem deploy_rollout_failure_amended (s : ServerState) (env : Env)
    (n t e o1 o2 : String)
    (h1 : env.applyRes = .ok o1) (h2 : env.restartRes = .ok o2)
    (h3 : checkIfModelMountExists env.getDeployYamlRes n = false →
      ∃ o3, env.patchAddRes = .ok o3)
    (h4 : env.statusRes = .error e) :
    (deploy s env n t).response = .error e ∧
    getKey (deploy s env n t).state.currentModels n = some t ∧
    getKey (deploy s env n t).state.configMapFile (n ++ ".js") =
      some t := by
  refine ⟨?_, getKey_setKey_self _ n t, ?_⟩
  · cases hm : checkIfModelMountExists env.getDeployYamlRes n
    · obtain ⟨o3, hp⟩ := h3 hm
      simp [deploy, deploySteps, h1, h2, hp, h4, hm]
    · simp [deploy, deploySteps, h1, h2, h4, hm]
  · show getKey (serializeData (setKey s.currentModels n t)) (n ++ ".js") =
      some t
    rw [getKey_serializeData]
    exact getKey_setKey_self _ n t

/-- Witness for the amended C3. -/
theorem deploy_rollout_failure_amended_witness :
    (deploy ⟨[], []⟩ statusFailEnv "W" "T").response =
      .error "timed out waiting for the condition" ∧
    getKey (deploy ⟨[], []⟩ statusFailEnv "W" "T").state.currentModels "W" =
      some "T" ∧
    getKey (deploy ⟨[], []⟩ statusFailEnv "W" "T").state.configMapFile
      ("W" ++ ".js") = some "T" :=
  deploy_rollout_failure_amended ⟨[], []⟩ statusFailEnv "W" "T"
    "timed out waiting for the condition" "applied" "restarted" rfl rfl
    (fun _ => ⟨"patched", rfl⟩) rfl

/-- Counterexample to C4: the ConfigMap document was emptied out of band,
yet List still returns a mapping containing the stale in-memory name "A",
so the returned mapping is not the document mapping. -/
theorem list_out_of_band_counterexample :
    (⟨[("A", "old")], []⟩ : ServerState).configMapFile = [] ∧
    hasKeyB (listModels ⟨[("A", "old")], []⟩).2 "A" = true :=
  ⟨rfl, rfl⟩

/-- Reading a key other than the assigned one is unchanged by the
assignment. -/
theorem getKey_setKey_ne (m : Models) (k v x : String)
    (h : (x == k) = false) : getKey (setKey m k v) x = getKey m x := by
  induction m with
  | nil =>
    have hkx : (k == x) = false := by rw [strBeq_comm]; exact h
    simp [setKey, getKey_cons, hkx]
  | cons p ps ih =>
    by_cases hpk : (p.1 == k) = true
    · have hk : p.1 = k := eq_of_beq hpk
      have hkx : (k == x) = false := by rw [strBeq_comm]; exact h
      rw [show setKey (p :: ps) k v = (k, v) :: ps by simp [setKey, hpk]]
      rw [getKey_cons, getKey_cons, hk]
      simp [hkx]
    · simp only [Bool.not_eq_true] at hpk
      rw [show setKey (p :: ps) k v = p :: setKey ps k v by
        simp [setKey, hpk]]
      rw [getKey_cons, getKey_cons, ih]

/-- Reloading leaves a name alone when no document key strips to it. -/
theorem getKey_loadExistingModels_not_mem (doc : Models) : ∀ mem x,
    (∀ q ∈ doc, (stripJs q.1 == x) = false) →
    getKey (loadExistingModels mem doc) x = getKey mem x := by
  induction doc with
  | nil => intro mem x _; rfl
  | cons d ds ih =>
    intro mem x h
    show getKey (loadExistingModels (setKey mem (stripJs d.1) d.2) ds) x =
      getKey mem x
    rw [ih (setKey mem (stripJs d.1) d.2) x
      (fun q hq => h q (List.mem_cons_of_mem _ hq))]
    exact getKey_setKey_ne mem (stripJs d.1) d.2 x
      (by rw [strBeq_comm]; exact h d (List.mem_cons_self d ds))

/-- When the document keys strip to distinct names, reloading stores each
document entry under its stripped key with the document text. -/
theorem getKey_loadExistingModels_of_mem (doc : Models) : ∀ mem : Models,
    (doc.map (fun p => stripJs p.1)).Nodup →
    ∀ k v, (k, v) ∈ doc →
    getKey (loadExistingModels mem doc) (stripJs k) = some v := by
  induction doc with
  | nil => intro mem _ k v hm; cases hm
  | cons d ds ih =>
    intro mem hnd k v hm
    simp only [List.map_cons, List.nodup_cons] at hnd
    rcases List.mem_cons.mp hm with he | hm2
    · have hk : k = d.1 := by rw [← he]
      have hv : v = d.2 := by rw [← he]
      subst hk
      subst hv
      show getKey (loadExistingModels (setKey mem (stripJs d.1) d.2) ds)
        (stripJs d.1) = some d.2
      rw [getKey_loadExistingModels_not_mem ds _ _ ?_]
      · exact getKey_setKey_self mem (stripJs d.1) d.2
      · intro q hq
        apply beq_eq_false_iff_ne.mpr
        intro hcontra
        exact hnd.1 (hcontra ▸ List.mem_map.mpr ⟨q, hq, rfl⟩)
    · exact ih (setKey mem (stripJs d.1) d.2) hnd.2 k v hm2

/-- Claim C4 amended: List reloads by merging the document into the in-memory
map: a name is in the returned mapping iff it was already in memory or
some document key strips to it — an entry removed from the document out of
band is not evicted from the answer — and, when the document keys strip to
distinct names, every document entry appears under its stripped key with
the document text. -/
theorem list_reload_merge (s : ServerState) (n : String) :
    (hasKeyB (listModels s).2 n =
      (hasKeyB s.currentModels n ||
        s.configMapFile.any (fun p => stripJs p.1 == n))) ∧
    ((s.configMapFile.map (fun p => stripJs p.1)).Nodup →
      ∀ k v, (k, v) ∈ s.configMapFile →
        getKey (listModels s).2 (stripJs k) = some v) :=
  ⟨hasKeyB_loadExistingModels s.currentModels s.configMapFile n,
   fun hnd k v hm =>
     getKey_loadExistingModels_of_mem s.configMapFile s.currentModels
       hnd k v hm⟩

/-- Witness for the amended C4: the stale in-memory name still appears,
and the document entry is returned with the document text. -/
theorem list_reload_merge_witness :
    hasKeyB (listModels ⟨[("A", "old")], [("B.js", "new")]⟩).2 "A" =
      true ∧
    getKey (listModels ⟨[("A", "old")], [("B.js", "new")]⟩).2 "B" =
      some "new" := by
  constructor
  · rw [(list_reload_merge ⟨[("A", "old")], [("B.js", "new")]⟩ "A").1]
    decide
  · exact (list_reload_merge ⟨[("A", "old")], [("B.js", "new")]⟩ "B").2
      (by decide) "B.js" "new" (by decide)

/-- Injectivity of the name-to-key derivation name + ".js". -/
theorem appendJs_injective :
    Function.Injective (fun a : String => a ++ ".js") := by
  intro a b hab
  have hd := congrArg String.data hab
  rw [String.data_append, String.data_append] at hd
  exact strExt (List.append_cancel_right hd)

/-- Claim C5: after a deploy or a delete, the data section of the document has
exactly the key name + ".js" for each tracked name — same key list, no
duplicates, equal entry count, the deployed key present and the deleted
key absent. -/
theorem configmap_keys_exact (s : ServerState) (env : Env) (n t : String)
    (hnd : (s.currentModels.map Prod.fst).Nodup) :
    ((deploy s env n t).state.configMapFile.map Prod.fst =
      (deploy s env n t).state.currentModels.map
        (fun q => q.1 ++ ".js")) ∧
    ((deploy s env n t).state.configMapFile.map Prod.fst).Nodup ∧
    (deploy s env n t).state.configMapFile.length =
      (deploy s env n t).state.currentModels.length ∧
    hasKeyB (deploy s env n t).state.configMapFile (n ++ ".js") = true ∧
    ((deleteModel s env n).state.configMapFile.map Prod.fst =
      (deleteModel s env n).state.currentModels.map
        (fun q => q.1 ++ ".js")) ∧
    ((deleteModel s env n).state.configMapFile.map Prod.fst).Nodup ∧
    (deleteModel s env n).state.configMapFile.length =
      (deleteModel s env n).state.currentModels.length ∧
    hasKeyB (deleteModel s env n).state.configMapFile (n ++ ".js") =
      false := by
  refine ⟨?_, ?_, ?_, ?_, ?_, ?_, ?_, ?_⟩
  · show (serializeData (setKey s.currentModels n t)).map Prod.fst = _
    rw [keys_serializeData, List.map_map]
    rfl
  · show ((serializeData (setKey s.currentModels n t)).map Prod.fst).Nodup
    rw [keys_serializeData]
    exact (nodup_keys_setKey _ n t hnd).map appendJs_injective
  · exact List.length_map _ _
  · show hasKeyB (serializeData (setKey s.currentModels n t)) (n ++ ".js") =
      true
    rw [hasKeyB_serializeData, hasKeyB_eq_isSome, getKey_setKey_self]
    rfl
  · show (serializeData (delKey s.currentModels n)).map Prod.fst = _
    rw [keys_serializeData, List.map_map]
    rfl
  · show ((serializeData (delKey s.currentModels n)).map Prod.fst).Nodup
    rw [keys_serializeData]
    exact (nodup_keys_delKey _ n hnd).map appendJs_injective
  · exact List.length_map _ _
  · show hasKeyB (serializeData (delKey s.currentModels n)) (n ++ ".js") =
      false
    rw [hasKeyB_serializeData]
    exact hasKeyB_delKey_self _ n

/-- Witness for C5 on a concrete one-entry state. -/
theorem configmap_keys_exact_witness :
    ((deploy ⟨[("A", "x")], []⟩ okEnv "B" "y").state.configMapFile.map
      Prod.fst).Nodup ∧
    hasKeyB (deleteModel ⟨[("A", "x")], []⟩ okEnv "A").state.configMapFile
      ("A" ++ ".js") = false :=
  ⟨(configmap_keys_exact ⟨[("A", "x")], []⟩ okEnv "B" "y"
      (by decide)).2.1,
   (configmap_keys_exact ⟨[("A", "x")], []⟩ okEnv "A" "y"
      (by decide)).2.2.2.2.2.2.2⟩

/-- Counterexample to C6: for the name "a.jsb", the derived key
"a.jsb.js" parses back (first-occurrence replace) to "ab.js", so a fresh
reload of the document written by deploy has no entry for "a.jsb". -/
theorem deploy_roundtrip_counterexample :
    stripJs ("a.jsb" ++ ".js") = "ab.js" ∧
    getKey (loadExistingModels []
      ((deploy ⟨[], []⟩ okEnv "a.jsb" "T").state.configMapFile)) "a.jsb" =
      none := by
  refine ⟨rfl, rfl⟩

/-- Claim C6 amended: for a name (and tracked names) free of the substring
".js", writing by deploy and parsing the document back from scratch is a
round-trip: the key strips back to the name and reading the name yields
exactly the deployed text. -/
theorem deploy_roundtrip_amended (s : ServerState) (env : Env)
    (n t : String)
    (hn : jsIncludes n ".js" = false)
    (hall : ∀ p ∈ s.currentModels, jsIncludes p.1 ".js" = false)
    (hnd : (s.currentModels.map Prod.fst).Nodup) :
    stripJs (n ++ ".js") = n ∧
    getKey (loadExistingModels []
      ((deploy s env n t).state.configMapFile)) n = some t := by
  refine ⟨stripJs_append n hn, ?_⟩
  show getKey (loadExistingModels []
    (serializeData (setKey s.currentModels n t))) n = some t
  rw [loadFresh_serialize (setKey s.currentModels n t) ?_
    (nodup_keys_setKey _ n t hnd)]
  · exact getKey_setKey_self _ n t
  · intro p hp
    rcases mem_setKey _ _ _ _ hp with h | h
    · exact hall p h
    · rw [h]
      exact hn

/-- Witness for the amended C6. -/
theorem deploy_roundtrip_amended_witness :
    stripJs ("Widget" ++ ".js") = "Widget" ∧
    getKey (loadExistingModels []
      ((deploy ⟨[], []⟩ okEnv "Widget" "T").state.configMapFile))
      "Widget" = some "T" :=
  deploy_roundtrip_amended ⟨[], []⟩ okEnv "Widget" "T" (by decide)
    (fun p hp => absurd hp (List.not_mem_nil p)) List.nodup_nil

/-- Counterexample to C7: with the tracked name "a.jsb" (whose key
"a.jsb.js" strips to "ab.js"), deleting the absent name "ab.js" and then
listing yields a mapping that does contain "ab.js". -/
theorem delete_then_list_counterexample :
    hasKeyB ([("a.jsb", "T")] : Models) "ab.js" = false ∧
    hasKeyB (listModels
      (deleteModel ⟨[("a.jsb", "T")], [("a.jsb.js", "T")]⟩ okEnv
        "ab.js").state).2 "ab.js" = true := by
  refine ⟨rfl, rfl⟩

/-- Claim C7 amended: provided every tracked name avoids the substring ".js",
Delete(n) followed by List() yields a mapping without n; deleting an
absent name leaves the in-memory map unchanged, and when the invoked
external commands succeed the delete call reports success. -/
theorem delete_then_list_amended (s : ServerState) (env : Env) (n : String)
    (hall : ∀ p ∈ s.currentModels, jsIncludes p.1 ".js" = false) :
    hasKeyB (listModels (deleteModel s env n).state).2 n = false ∧
    (hasKeyB s.currentModels n = false →
      (deleteModel s env n).state.currentModels = s.currentModels) ∧
    ((∃ o, env.applyRes = .ok o) → (∃ m, env.getDeployJsonRes = .ok m) →
      (∃ o, env.patchRemoveRes = .ok o) → (∃ o, env.restartRes = .ok o) →
      (deleteModel s env n).response =
        .ok ("Model " ++ n ++ " deleted successfully")) := by
  refine ⟨?_, fun h => delKey_of_not_hasKey _ n h, ?_⟩
  · have hserial : ∀ p ∈ serializeData (delKey s.currentModels n),
        (stripJs p.1 == n) = false := by
      intro p hp
      rcases List.mem_map.mp hp with ⟨q, hq, hqe⟩
      have hmem := mem_delKey _ _ _ hq
      rw [← hqe]
      show (stripJs (q.1 ++ ".js") == n) = false
      rw [stripJs_append q.1 (hall q hmem.1)]
      exact hmem.2
    show hasKeyB (loadExistingModels (delKey s.currentModels n)
      (serializeData (delKey s.currentModels n))) n = false
    rw [hasKeyB_loadExistingModels, hasKeyB_delKey_self]
    apply Bool.or_eq_false_iff.mpr
    refine ⟨rfl, ?_⟩
    apply Bool.eq_false_iff.mpr
    intro hc
    rw [List.any_eq_true] at hc
    obtain ⟨p, hp, hpp⟩ := hc
    rw [hserial p hp] at hpp
    exact Bool.false_ne_true hpp
  · rintro ⟨oa, ha⟩ ⟨mj, hj⟩ ⟨op, hp2⟩ ⟨orr, hr⟩
    cases hm : checkIfModelMountExists env.getDeployYamlRes n
    · simp [deleteModel, deleteSteps, ha, hr, hm]
    · rcases hidx : mj.findIdx?
        (fun p => p == "/cube/conf/model/" ++ n ++ ".js") with _ | i
      · simp [deleteModel, deleteSteps, ha, hj, hm, hidx, hr]
      · simp [deleteModel, deleteSteps, ha, hj, hm, hidx, hp2, hr]

/-- Witness for the amended C7. -/
theorem delete_then_list_amended_witness :
    hasKeyB (listModels
      (deleteModel ⟨[("A", "x")], []⟩ okEnv "B").state).2 "B" = false ∧
    (deleteModel ⟨[("A", "x")], []⟩ okEnv "B").state.currentModels =
      [("A", "x")] ∧
    (deleteModel ⟨[("A", "x")], []⟩ okEnv "B").response =
      .ok ("Model " ++ "B" ++ " deleted successfully") := by
  have h := delete_then_list_amended ⟨[("A", "x")], []⟩ okEnv "B"
    (by decide)
  exact ⟨h.1, h.2.1 (by decide),
    h.2.2 ⟨"applied", rfl⟩ ⟨[], rfl⟩ ⟨"removed", rfl⟩ ⟨"restarted", rfl⟩⟩

/-- Claim C8: validateModel fails whenever neither marker substring is present;
with a marker present it fails when the structural sql:/cubes: marker is
missing or the parse oracle throws, and succeeds otherwise, for every
parse oracle (no deeper semantic check). -/
theorem validate_characterization (parses : String → Option String)
    (code : String) :
    ((jsIncludes code "cube(" = false ∧ jsIncludes code "view(" = false) →
      validateModel parses code =
        .error "Model must contain a cube() or view() function") ∧
    ((jsIncludes code "cube(" || jsIncludes code "view(") = true →
      ((jsIncludes code "sql:" = false ∧ jsIncludes code "cubes:" = false) →
        validateModel parses code =
          .error "Model must contain SQL definition or cube references") ∧
      (∀ msg, parses code = some msg →
        (jsIncludes code "sql:" || jsIncludes code "cubes:") = true →
        validateModel parses code = .error msg) ∧
      (parses code = none →
        (jsIncludes code "sql:" || jsIncludes code "cubes:") = true →
        validateModel parses code = .ok ())) := by
  constructor
  · rintro ⟨h1, h2⟩
    simp [validateModel, h1, h2]
  · intro hm
    have hcv : (!jsIncludes code "cube(" && !jsIncludes code "view(") =
        false := by
      rw [← Bool.not_or, hm]
      rfl
    refine ⟨?_, ?_, ?_⟩
    · rintro ⟨h1, h2⟩
      simp [validateModel, hcv, h1, h2]
    · intro msg hp hs
      have hsv : (!jsIncludes code "sql:" && !jsIncludes code "cubes:") =
          false := by
        rw [← Bool.not_or, hs]
        rfl
      simp [validateModel, hcv, hsv, hp]
    · intro hp hs
      have hsv : (!jsIncludes code "sql:" && !jsIncludes code "cubes:") =
          false := by
        rw [← Bool.not_or, hs]
        rfl
      simp [validateModel, hcv, hsv, hp]

/-- Witness for C8: a marker-bearing structurally complete text passes, a
marker-free text fails. -/
theorem validate_characterization_witness :
    validateModel (fun _ => none) "cube(widget, sql: select one)" =
      .ok () ∧
    validateModel (fun _ => none) "hello world" =
      .error "Model must contain a cube() or view() function" :=
  ⟨((validate_characterization (fun _ => none)
      "cube(widget, sql: select one)").2 (by decide)).2.2 rfl (by decide),
   (validate_characterization (fun _ => none) "hello world").1
     ⟨by decide, by decide⟩⟩

/-- Counterexample to C9: the name "A" is present in the in-memory map
with the empty stored text, yet Get answers the 404 branch: presence
alone does not produce the stored text. -/
theorem get_present_counterexample :
    getKey ([("A", "")] : Models) "A" = some "" ∧
    getModel ⟨[("A", "")], []⟩ "A" = .error "Model A not found" :=
  ⟨rfl, rfl⟩

/-- Claim C9 amended: Get answers from the in-memory map only (the document is
not consulted): a present non-empty text is returned, an absent name is a
404, and a present empty text also hits the 404 branch because the lookup
is a JS truthiness test. -/
theorem get_served_from_memory (s : ServerState) (n : String) :
    (∀ t, getKey s.currentModels n = some t → t ≠ "" →
      getModel s n = .ok t) ∧
    (getKey s.currentModels n = none →
      getModel s n = .error ("Model " ++ n ++ " not found")) ∧
    (getKey s.currentModels n = some "" →
      getModel s n = .error ("Model " ++ n ++ " not found")) ∧
    (∀ doc : Models,
      getModel ⟨s.currentModels, doc⟩ n = getModel s n) := by
  refine ⟨?_, ?_, ?_, fun doc => rfl⟩
  · intro t ht hne
    simp [getModel, ht, jsTruthy, bne_iff_ne, hne]
  · intro ht
    simp [getModel, ht, jsTruthy]
  · intro ht
    simp [getModel, ht, jsTruthy]

/-- Witness for the amended C9. -/
theorem get_served_from_memory_witness :
    getModel ⟨[("A", "hello")], [("zzz", "q")]⟩ "A" = .ok "hello" :=
  (get_served_from_memory ⟨[("A", "hello")], [("zzz", "q")]⟩ "A").1
    "hello" rfl (by decide)

/-- Claim C10: a failing mount-existence query is swallowed as "not registered":
deploy then issues the mount-add patch and reports success, and delete
skips the mount-removal commands and reports success — neither surfaces
the query failure. -/
theorem mount_query_failure_swallowed (s : ServerState) (env : Env)
    (n t e o1 o2 o3 o4 : String)
    (hq : env.getDeployYamlRes = .error e)
    (ha : env.applyRes = .ok o1) (hr : env.restartRes = .ok o2)
    (hp : env.patchAddRes = .ok o3) (hs : env.statusRes = .ok o4) :
    checkIfModelMountExists env.getDeployYamlRes n = false ∧
    (deploy s env n t).invoked =
      [.applyConfigMap, .restart, .getDeployYaml, .patchAddMount,
       .rolloutStatus] ∧
    (deploy s env n t).response =
      .ok [⟨"apply", o1⟩, ⟨"restart", o2⟩, ⟨"mount", o3⟩,
           ⟨"status", o4⟩] ∧
    (deleteModel s env n).invoked =
      [.applyConfigMap, .getDeployYaml, .restart] ∧
    (deleteModel s env n).response =
      .ok ("Model " ++ n ++ " deleted successfully") := by
  have hc : checkIfModelMountExists env.getDeployYamlRes n = false := by
    rw [hq]
    rfl
  refine ⟨hc, ?_, ?_, ?_, ?_⟩
  · simp [deploy, deploySteps, ha, hr, hp, hs, hc]
  · simp [deploy, deploySteps, ha, hr, hp, hs, hc]
  · simp [deleteModel, deleteSteps, ha, hr, hc]
  · simp [deleteModel, deleteSteps, ha, hr, hc]

/-- Witness for C10 with a concrete failing query. -/
theorem mount_query_failure_swallowed_witness :
    checkIfModelMountExists queryFailEnv.getDeployYamlRes "W" = false ∧
    (deploy ⟨[], []⟩ queryFailEnv "W" "T").response =
      .ok [⟨"apply", "applied"⟩, ⟨"restart", "restarted"⟩,
           ⟨"mount", "patched"⟩, ⟨"status", "ready"⟩] ∧
    (deleteModel ⟨[], []⟩ queryFailEnv "W").invoked =
      [.applyConfigMap, .getDeployYaml, .restart] := by
  have h := mount_query_failure_swallowed ⟨[], []⟩ queryFailEnv "W" "T"
    "connection refused" "applied" "restarted" "patched" "ready"
    rfl rfl rfl rfl rfl
  exact ⟨h.1, h.2.2.1, h.2.2.2.1⟩
